import Mathlib

/-!
Shallow embedding of the booking core of the Telegram gym-booking bot
(`Main.go`): the data model (`Trainer`, `Booking`, `User`, `AppState`),
the booking transaction `bookSlot`, the persistence lifecycle
`loadState` / `saveState`, the directory lookups, and the slot-selection
callback handler from `main`.  Go `int` / `int64` become `Int`; the
`map[int64]*User` becomes an association list with unique keys; the
durable JSON record becomes an `Option AppState` (the JSON codec is
lossless for these field types, so the store holds the decoded value).
Fallible operations return `Except BookErr _`.
-/

namespace GymBot

structure Trainer where
  id : Int
  name : String
  bio : String
  achievements : List String
  slots : List String
deriving DecidableEq, Repr

structure Booking where
  userId : Int
  trainer : Int
  timeSlot : String
  bookedAt : Int
deriving DecidableEq, Repr

structure User where
  id : Int
  name : String
  hasPaid : Bool
deriving DecidableEq, Repr

structure AppState where
  users : List (Int × User)
  trainers : List Trainer
  bookings : List Booking
deriving DecidableEq, Repr

/-- The four error values `bookSlot` can produce (Go returns them as
`fmt.Errorf` messages; we name them as the spec does). -/
inductive BookErr where
  | differentTrainer
  | limitExceeded
  | trainerNotFound
  | slotUnavailable
deriving DecidableEq, Repr

instance : DecidableEq (Except BookErr AppState) := fun a b =>
  match a, b with
  | .ok x, .ok y => decidable_of_iff (x = y) (by simp)
  | .error x, .error y => decidable_of_iff (x = y) (by simp)
  | .ok _, .error _ => isFalse (by simp)
  | .error _, .ok _ => isFalse (by simp)

/-- `defaultSlots` from Main.go: the thirteen hourly labels 08:00–20:00. -/
def defaultSlots : List String :=
  ["08:00", "09:00", "10:00", "11:00", "12:00", "13:00", "14:00",
   "15:00", "16:00", "17:00", "18:00", "19:00", "20:00"]

def trainer1 : Trainer :=
  { id := 1, name := "Айдос Нуртаев",
    bio := "Силовой тренинг, функциональная подготовка.",
    achievements := ["МС по пауэрлифтингу", "Победитель Almaty Open 2022"],
    slots := defaultSlots }

def trainer2 : Trainer :=
  { id := 2, name := "Алия Жаксылыкова",
    bio := "Фитнес для женщин, послеродовое восстановление.",
    achievements := ["Сертифицированный персональный тренер NASM"],
    slots := defaultSlots }

def trainer3 : Trainer :=
  { id := 3, name := "Расул Абдрахман",
    bio := "Бокс, ОФП, выносливость.",
    achievements := ["Чемпион РК среди юниоров по боксу"],
    slots := defaultSlots }

def trainer4 : Trainer :=
  { id := 4, name := "Динара Есмухан",
    bio := "Йога, гибкость, дыхательные практики.",
    achievements := ["RYT-500 Yoga Alliance"],
    slots := defaultSlots }

def trainer5 : Trainer :=
  { id := 5, name := "Мади Бекен",
    bio := "Кроссфит, снижение веса.",
    achievements := ["Сертифицированный тренер CrossFit L1"],
    slots := defaultSlots }

/-- `defaultTrainers` from Main.go: the five-entry seed catalogue. -/
def defaultTrainers : List Trainer :=
  [trainer1, trainer2, trainer3, trainer4, trainer5]

/-- The fresh state built by `loadState` when no record exists
(Main.go lines 75–79). -/
def initialState : AppState :=
  { users := [], trainers := defaultTrainers, bookings := [] }

/-- The booking-scan loop of `bookSlot` (Main.go lines 145–159):
walks the ledger keeping the `existingTrainer` sentinel (zero value
until the user's first booking is seen) and the count of the user's
bookings with the requested trainer; exits early with
`differentTrainer` exactly where the Go loop `return`s. -/
def scanBookings (userID trainerID : Int) :
    List Booking → Int → Nat → Except BookErr (Int × Nat)
  | [], existingTrainer, cnt => .ok (existingTrainer, cnt)
  | b :: rest, existingTrainer, cnt =>
    if b.userId = userID then
      let et := if existingTrainer = 0 then b.trainer else existingTrainer
      if b.trainer = trainerID then
        scanBookings userID trainerID rest et (cnt + 1)
      else if trainerID ≠ et then
        .error .differentTrainer
      else
        scanBookings userID trainerID rest et cnt
    else
      scanBookings userID trainerID rest existingTrainer cnt

/-- Removal of the first occurrence of `slot`, as Main.go lines 175–187
perform it (`pos` search plus `append(slots[:pos], slots[pos+1:]...)`);
`none` when the slot is absent (`pos == -1`). -/
def removeFirst (slot : String) : List String → Option (List String)
  | [] => none
  | sl :: rest =>
    if sl = slot then some rest
    else
      match removeFirst slot rest with
      | none => none
      | some r => some (sl :: r)

/-- Steps 4–6 of the transaction (Main.go lines 164–187): resolve the
first trainer whose ID matches, then remove the requested slot from
that trainer only; `trainerNotFound` when no ID matches (`idx == -1`),
`slotUnavailable` when the slot is absent from the matched trainer. -/
def updateTrainers (trainerID : Int) (slot : String) :
    List Trainer → Except BookErr (List Trainer)
  | [] => .error .trainerNotFound
  | t :: rest =>
    if t.id = trainerID then
      match removeFirst slot t.slots with
      | none => .error .slotUnavailable
      | some slots => .ok ({ t with slots := slots } :: rest)
    else
      match updateTrainers trainerID slot rest with
      | .error e => .error e
      | .ok ts => .ok (t :: ts)

/-- `bookSlot` (Main.go lines 141–197).  The wall-clock timestamp
`time.Now().Unix()` is passed in as `now`. -/
def bookSlot (userID trainerID : Int) (slot : String) (now : Int)
    (s : AppState) : Except BookErr AppState :=
  match scanBookings userID trainerID s.bookings 0 0 with
  | .error e => .error e
  | .ok (_, cnt) =>
    if 3 ≤ cnt then .error .limitExceeded
    else
      match updateTrainers trainerID slot s.trainers with
      | .error e => .error e
      | .ok ts =>
        .ok { s with
              trainers := ts,
              bookings := s.bookings ++
                [{ userId := userID, trainer := trainerID,
                   timeSlot := slot, bookedAt := now }] }

/-- The state a successful `bookSlot` builds: trainer list replaced,
one booking appended (the `.ok` payload of `bookSlot`). -/
def afterBooking (userID trainerID : Int) (slot : String) (now : Int)
    (s : AppState) (ts : List Trainer) : AppState :=
  { s with
    trainers := ts,
    bookings := s.bookings ++
      [{ userId := userID, trainer := trainerID,
         timeSlot := slot, bookedAt := now }] }

/-- `getOrCreateUser` (Main.go lines 119–128): map lookup, lazily
inserting `HasPaid=false` on a miss. -/
def getOrCreateUser (id : Int) (name : String) (s : AppState) :
    User × AppState :=
  match s.users.find? (fun p => p.1 == id) with
  | some p => (p.2, s)
  | none =>
    let u : User := { id := id, name := name, hasPaid := false }
    (u, { s with users := s.users ++ [(id, u)] })

/-- `getTrainerByID` (Main.go lines 130–139): linear scan by ID. -/
def getTrainerByID (id : Int) (s : AppState) : Option Trainer :=
  s.trainers.find? (fun t => t.id == id)

/-- The `pay_` callback mutation (Main.go line 425):
`state.Users[userID].HasPaid = true` through the map's pointer. -/
def setPaid (uid : Int) (s : AppState) : AppState :=
  { s with
    users := s.users.map (fun p =>
      if p.1 == uid then (p.1, { p.2 with hasPaid := true }) else p) }

/-- `saveState` (Main.go lines 107–117): marshals the whole state over
the durable record (the codec is lossless for these types, so the
record is modelled as the state value itself). -/
def saveState (s : AppState) (_store : Option AppState) : Option AppState :=
  some s

/-- `loadState` (Main.go lines 71–105).  On a missing record it installs
the fresh seeded state and immediately persists it (`return saveState()`);
on a present record it substitutes the seed catalogue if the decoded
trainer list is empty (the `Users == nil` normalisation is the identity
in the association-list model) and leaves the record untouched.
Returns (in-memory state, record after the call). -/
def loadState (store : Option AppState) : AppState × Option AppState :=
  match store with
  | none => (initialState, saveState initialState store)
  | some rec =>
    ({ rec with
       trainers := if rec.trainers.isEmpty then defaultTrainers
                   else rec.trainers },
     store)

/-- Outcomes of the `slot_` callback branch of `main`. -/
inductive SlotCbResult where
  | rejectedUnpaid
  | bookFailed (e : BookErr)
  | booked
deriving DecidableEq, Repr

/-- The `slot_` callback branch of `main` (Main.go lines 337–340 and
393–411): resolve the user (`getOrCreateUser`), reject unpaid users
before `bookSlot` is invoked, otherwise run the transaction and — on
success only — attempt `saveState`, ignoring its error (`_ = saveState()`).
`saveOk` abstracts whether the durable write succeeds; on failure the
record keeps its old content while the in-memory state keeps the
mutation. -/
def handleSlotCallback (uid : Int) (name : String) (tid : Int)
    (sl : String) (now : Int) (saveOk : Bool) (s : AppState)
    (store : Option AppState) :
    SlotCbResult × AppState × Option AppState :=
  let res := getOrCreateUser uid name s
  if res.1.hasPaid then
    match bookSlot uid tid sl now res.2 with
    | .error e => (.bookFailed e, res.2, store)
    | .ok s2 => (.booked, s2, if saveOk then saveState s2 store else store)
  else
    (.rejectedUnpaid, res.2, store)

/-- `scheduleKeyboard`'s state access (Main.go line 239):
`state.Trainers[trainerID-1].Slots` — a positional index with no bounds
check; an out-of-range index panics in Go and is `none` here. -/
def scheduleKeyboardSlots (trainerID : Int) (s : AppState) :
    Option (List String) :=
  if trainerID - 1 < 0 then none
  else (s.trainers[(trainerID - 1).toNat]?).map (fun t => t.slots)

/-- Number of bookings pairing `uid` with `tid` in state `s`. -/
def countBookings (s : AppState) (uid tid : Int) : Nat :=
  s.bookings.countP (fun b => b.userId == uid && b.trainer == tid)

/-- States reachable from the seeded fresh state through the operations
`main` performs: bookings, lazy user creation, and payment grants. -/
inductive Reachable : AppState → Prop
  | init : Reachable initialState
  | book {s s' : AppState} (uid tid : Int) (sl : String) (now : Int) :
      Reachable s → bookSlot uid tid sl now s = .ok s' → Reachable s'
  | user {s : AppState} (uid : Int) (name : String) :
      Reachable s → Reachable (getOrCreateUser uid name s).2
  | pay {s : AppState} (uid : Int) :
      Reachable s → Reachable (setPaid uid s)

/-! ### Lemmas about `removeFirst` -/

theorem removeFirst_eq_none (sl : String) (l : List String) :
    removeFirst sl l = none ↔ sl ∉ l := by
  induction l with
  | nil => simp [removeFirst]
  | cons a l ih =>
    simp only [removeFirst, List.mem_cons]
    by_cases h : a = sl
    · simp [h]
    · rw [if_neg h]
      cases hr : removeFirst sl l with
      | none =>
        have hnot := ih.mp hr
        simp only [true_iff]
        rintro (rfl | hmem)
        · exact h rfl
        · exact hnot hmem
      | some r =>
        have : sl ∈ l := by
          by_contra hsl
          rw [ih.mpr hsl] at hr
          cases hr
        simp [this]

theorem removeFirst_eq_some (sl : String) (l r : List String)
    (h : removeFirst sl l = some r) :
    ∃ l1 l2, l = l1 ++ sl :: l2 ∧ sl ∉ l1 ∧ r = l1 ++ l2 := by
  induction l generalizing r with
  | nil => simp [removeFirst] at h
  | cons a l ih =>
    simp only [removeFirst] at h
    by_cases ha : a = sl
    · rw [if_pos ha] at h
      refine ⟨[], l, by simp [ha], by simp, ?_⟩
      cases h
      rfl
    · rw [if_neg ha] at h
      cases hr : removeFirst sl l with
      | none => rw [hr] at h; cases h
      | some r2 =>
        rw [hr] at h
        obtain ⟨l1, l2, hl, hnot, hr2⟩ := ih r2 hr
        cases h
        refine ⟨a :: l1, l2, by simp [hl], ?_, by simp [hr2]⟩
        simp only [List.mem_cons, not_or]
        exact ⟨fun hh => ha hh.symm, hnot⟩

theorem removeFirst_sublist (sl : String) (l r : List String)
    (h : removeFirst sl l = some r) : r.Sublist l := by
  obtain ⟨l1, l2, hl, -, hr⟩ := removeFirst_eq_some sl l r h
  rw [hl, hr]
  exact (List.sublist_cons_self sl l2).append_left l1

/-! ### Lemmas about `updateTrainers` -/

theorem updateTrainers_ok_decomp (tid : Int) (sl : String)
    (ts ts2 : List Trainer) (h : updateTrainers tid sl ts = .ok ts2) :
    ∃ pre t l1 l2 post,
      ts = pre ++ t :: post ∧ (∀ t2 ∈ pre, t2.id ≠ tid) ∧ t.id = tid ∧
      t.slots = l1 ++ sl :: l2 ∧ sl ∉ l1 ∧
      ts2 = pre ++ { t with slots := l1 ++ l2 } :: post := by
  induction ts generalizing ts2 with
  | nil => simp [updateTrainers] at h
  | cons t ts ih =>
    simp only [updateTrainers] at h
    by_cases ht : t.id = tid
    · rw [if_pos ht] at h
      cases hr : removeFirst sl t.slots with
      | none => rw [hr] at h; cases h
      | some slots2 =>
        rw [hr] at h
        obtain ⟨l1, l2, hsl, hnot, hr2⟩ := removeFirst_eq_some sl t.slots slots2 hr
        cases h
        exact ⟨[], t, l1, l2, ts, by simp, by simp, ht, hsl, hnot, by simp [hr2]⟩
    · rw [if_neg ht] at h
      cases hu : updateTrainers tid sl ts with
      | error e => rw [hu] at h; cases h
      | ok ts3 =>
        rw [hu] at h
        cases h
        obtain ⟨pre, t2, l1, l2, post, h1, h2, h3, h4, h5, h6⟩ := ih ts3 hu
        exact ⟨t :: pre, t2, l1, l2, post, by simp [h1],
               List.forall_mem_cons.mpr ⟨ht, h2⟩, h3, h4, h5, by simp [h6]⟩

theorem updateTrainers_ok_map_id (tid : Int) (sl : String)
    (ts ts2 : List Trainer) (h : updateTrainers tid sl ts = .ok ts2) :
    ts2.map (fun t => t.id) = ts.map (fun t => t.id) := by
  obtain ⟨pre, t, l1, l2, post, h1, -, -, -, -, h6⟩ :=
    updateTrainers_ok_decomp tid sl ts ts2 h
  rw [h1, h6]
  simp

theorem updateTrainers_eq_notFound (tid : Int) (sl : String)
    (ts : List Trainer) :
    updateTrainers tid sl ts = .error .trainerNotFound ↔
      ∀ t ∈ ts, t.id ≠ tid := by
  induction ts with
  | nil => simp [updateTrainers]
  | cons t ts ih =>
    simp only [updateTrainers, List.forall_mem_cons]
    by_cases ht : t.id = tid
    · rw [if_pos ht]
      cases removeFirst sl t.slots <;> simp [ht]
    · rw [if_neg ht]
      cases hu : updateTrainers tid sl ts with
      | error e =>
        simp only [← ih, hu]
        constructor
        · intro h
          cases h
          exact ⟨ht, rfl⟩
        · intro h
          rw [h.2]
      | ok ts2 =>
        simp only [← ih, hu]
        constructor
        · intro h; cases h
        · intro h; cases h.2

theorem updateTrainers_eq_slotUnavailable (tid : Int) (sl : String)
    (ts : List Trainer) (hex : ∃ t ∈ ts, t.id = tid)
    (hnot : ∀ t ∈ ts, t.id = tid → sl ∉ t.slots) :
    updateTrainers tid sl ts = .error .slotUnavailable := by
  induction ts with
  | nil => simp at hex
  | cons t ts ih =>
    simp only [updateTrainers]
    by_cases ht : t.id = tid
    · rw [if_pos ht,
        (removeFirst_eq_none sl t.slots).mpr (hnot t (List.mem_cons_self t ts) ht)]
    · rw [if_neg ht]
      have hex2 : ∃ t2 ∈ ts, t2.id = tid := by
        obtain ⟨t2, ht2, hid⟩ := hex
        rcases List.mem_cons.mp ht2 with rfl | hmem
        · exact absurd hid ht
        · exact ⟨t2, hmem, hid⟩
      rw [ih hex2 (fun t2 h2 => hnot t2 (List.mem_cons_of_mem t h2))]

theorem updateTrainers_error_cases (tid : Int) (sl : String)
    (ts : List Trainer) (e : BookErr)
    (h : updateTrainers tid sl ts = .error e) :
    e = .trainerNotFound ∨ e = .slotUnavailable := by
  induction ts with
  | nil =>
    simp only [updateTrainers] at h
    cases h
    exact Or.inl rfl
  | cons t ts ih =>
    simp only [updateTrainers] at h
    by_cases ht : t.id = tid
    · rw [if_pos ht] at h
      cases hr : removeFirst sl t.slots with
      | none => rw [hr] at h; cases h; exact Or.inr rfl
      | some slots2 => rw [hr] at h; cases h
    · rw [if_neg ht] at h
      cases hu : updateTrainers tid sl ts with
      | error e2 => rw [hu] at h; cases h; exact ih hu
      | ok ts2 => rw [hu] at h; cases h

/-! ### Lemmas about `scanBookings` -/

/-- The Boolean predicate selecting `uid`'s bookings with trainer `tid`. -/
def isPair (uid tid : Int) (b : Booking) : Bool :=
  b.userId == uid && b.trainer == tid

theorem scanBookings_error_eq (uid tid : Int) (l : List Booking)
    (et : Int) (cnt : Nat) (e : BookErr)
    (h : scanBookings uid tid l et cnt = .error e) :
    e = .differentTrainer := by
  induction l generalizing et cnt with
  | nil => simp [scanBookings] at h
  | cons b l ih =>
    simp only [scanBookings] at h
    by_cases hb : b.userId = uid
    · rw [if_pos hb] at h
      by_cases htr : b.trainer = tid
      · rw [if_pos htr] at h
        exact ih _ _ h
      · rw [if_neg htr] at h
        by_cases hne : tid ≠ (if et = 0 then b.trainer else et)
        · rw [if_pos hne] at h
          cases h
          rfl
        · rw [if_neg hne] at h
          exact ih _ _ h
    · rw [if_neg hb] at h
      exact ih _ _ h

theorem scanBookings_ok_count (uid tid : Int) (l : List Booking)
    (et : Int) (cnt : Nat) (et2 : Int) (cnt2 : Nat)
    (h : scanBookings uid tid l et cnt = .ok (et2, cnt2)) :
    cnt2 = cnt + l.countP (isPair uid tid) := by
  induction l generalizing et cnt with
  | nil =>
    simp only [scanBookings, Except.ok.injEq, Prod.mk.injEq] at h
    simp [h.2]
  | cons b l ih =>
    simp only [scanBookings] at h
    simp only [List.countP_cons]
    by_cases hb : b.userId = uid
    · rw [if_pos hb] at h
      by_cases htr : b.trainer = tid
      · rw [if_pos htr] at h
        have := ih _ _ h
        simp only [isPair, hb, htr, beq_self_eq_true, Bool.and_self, if_pos]
        omega
      · rw [if_neg htr] at h
        have hpair : isPair uid tid b = false := by
          simp [isPair, htr]
        by_cases hne : tid ≠ (if et = 0 then b.trainer else et)
        · rw [if_pos hne] at h
          cases h
        · rw [if_neg hne] at h
          have := ih _ _ h
          simp [hpair]
          omega
    · rw [if_neg hb] at h
      have hpair : isPair uid tid b = false := by
        simp [isPair, hb]
      have := ih _ _ h
      simp [hpair]
      omega

theorem scanBookings_skip (uid tid : Int) (l : List Booking)
    (h : ∀ b ∈ l, ¬ b.userId = uid) (et : Int) (cnt : Nat) :
    scanBookings uid tid l et cnt = .ok (et, cnt) := by
  induction l with
  | nil => rfl
  | cons b l ih =>
    simp only [scanBookings, if_neg (h b (List.mem_cons_self b l))]
    exact ih (fun b2 h2 => h b2 (List.mem_cons_of_mem b h2))

theorem scanBookings_ok_of_same (uid tid : Int) (l : List Booking)
    (h : ∀ b ∈ l, b.userId = uid → b.trainer = tid) (et : Int) (cnt : Nat) :
    ∃ et2, scanBookings uid tid l et cnt =
      .ok (et2, cnt + l.countP (isPair uid tid)) := by
  induction l generalizing et cnt with
  | nil => exact ⟨et, rfl⟩
  | cons b l ih =>
    simp only [scanBookings, List.countP_cons]
    by_cases hb : b.userId = uid
    · have htr := h b (List.mem_cons_self b l) hb
      rw [if_pos hb, if_pos htr]
      have hpair : isPair uid tid b = true := by simp [isPair, hb, htr]
      obtain ⟨et2, heq⟩ :=
        ih (fun b2 h2 => h b2 (List.mem_cons_of_mem b h2))
          (if et = 0 then b.trainer else et) (cnt + 1)
      refine ⟨et2, ?_⟩
      rw [heq, hpair]
      norm_num
      omega
    · rw [if_neg hb]
      have hpair : isPair uid tid b = false := by simp [isPair, hb]
      obtain ⟨et2, heq⟩ :=
        ih (fun b2 h2 => h b2 (List.mem_cons_of_mem b h2)) et cnt
      refine ⟨et2, ?_⟩
      rw [heq, hpair]
      norm_num

theorem scanBookings_diff_error (uid tid : Int) (l : List Booking)
    (hall : ∀ b ∈ l, b.userId = uid → b.trainer ≠ tid)
    (hex : ∃ b ∈ l, b.userId = uid) (et : Int)
    (het : et = 0 ∨ et ≠ tid) (cnt : Nat) :
    scanBookings uid tid l et cnt = .error .differentTrainer := by
  induction l generalizing et cnt with
  | nil => simp at hex
  | cons b l ih =>
    simp only [scanBookings]
    by_cases hb : b.userId = uid
    · have htr : b.trainer ≠ tid := hall b (List.mem_cons_self b l) hb
      rw [if_pos hb, if_neg htr, if_pos]
      rcases het with rfl | hne
      · rw [if_pos rfl]
        exact fun hh => htr hh.symm
      · by_cases h0 : et = 0
        · rw [if_pos h0]
          exact fun hh => htr hh.symm
        · rw [if_neg h0]
          exact fun hh => hne hh.symm
    · rw [if_neg hb]
      have hex2 : ∃ b2 ∈ l, b2.userId = uid := by
        obtain ⟨b2, hb2, hu⟩ := hex
        rcases List.mem_cons.mp hb2 with rfl | hmem
        · exact absurd hu hb
        · exact ⟨b2, hmem, hu⟩
      exact ih (fun b2 h2 => hall b2 (List.mem_cons_of_mem b h2)) hex2 et het cnt

/-! ### Lemmas about `bookSlot` -/

theorem countBookings_eq (s : AppState) (uid tid : Int) :
    countBookings s uid tid = s.bookings.countP (isPair uid tid) := rfl

theorem bookSlot_ok_decomp (uid tid : Int) (sl : String) (now : Int)
    (s s2 : AppState) (h : bookSlot uid tid sl now s = .ok s2) :
    s2.users = s.users ∧
    s2.bookings = s.bookings ++
      [{ userId := uid, trainer := tid, timeSlot := sl, bookedAt := now }] ∧
    updateTrainers tid sl s.trainers = .ok s2.trainers ∧
    countBookings s uid tid ≤ 2 ∧
    (∃ p, scanBookings uid tid s.bookings 0 0 = .ok p) := by
  unfold bookSlot at h
  cases hscan : scanBookings uid tid s.bookings 0 0 with
  | error e => rw [hscan] at h; cases h
  | ok p =>
    obtain ⟨et, cnt⟩ := p
    rw [hscan] at h
    simp only at h
    by_cases hc : 3 ≤ cnt
    · rw [if_pos hc] at h; cases h
    · rw [if_neg hc] at h
      cases hu : updateTrainers tid sl s.trainers with
      | error e => rw [hu] at h; cases h
      | ok ts =>
        rw [hu] at h
        simp only at h
        cases h
        have hcnt := scanBookings_ok_count uid tid s.bookings 0 0 et cnt hscan
        refine ⟨rfl, rfl, rfl, ?_, ⟨(et, cnt), rfl⟩⟩
        rw [countBookings_eq]
        omega

/-- Under the single-trainer invariant, a successful scan means every
existing booking of `uid` is with the requested trainer. -/
theorem scan_ok_all_same (uid tid : Int) (s : AppState)
    (hsame : ∀ b1 ∈ s.bookings, ∀ b2 ∈ s.bookings,
      b1.userId = b2.userId → b1.trainer = b2.trainer)
    (p : Int × Nat) (hscan : scanBookings uid tid s.bookings 0 0 = .ok p) :
    ∀ b ∈ s.bookings, b.userId = uid → b.trainer = tid := by
  by_contra hcon
  push_neg at hcon
  obtain ⟨b0, hb0, hu0, ht0⟩ := hcon
  have hall : ∀ b ∈ s.bookings, b.userId = uid → b.trainer ≠ tid := by
    intro b hb hu
    rw [hsame b hb b0 hb0 (hu.trans hu0.symm)]
    exact ht0
  rw [scanBookings_diff_error uid tid s.bookings hall ⟨b0, hb0, hu0⟩ 0
    (Or.inl rfl) 0] at hscan
  cases hscan

/-! ### The reachable-state invariant -/

structure Inv (s : AppState) : Prop where
  ids_eq : s.trainers.map (fun t => t.id) = [1, 2, 3, 4, 5]
  slots_nodup : ∀ t ∈ s.trainers, t.slots.Nodup
  same_trainer : ∀ b1 ∈ s.bookings, ∀ b2 ∈ s.bookings,
    b1.userId = b2.userId → b1.trainer = b2.trainer
  cap : ∀ uid tid, countBookings s uid tid ≤ 3
  booked_exists : ∀ b ∈ s.bookings, b.trainer ∈ s.trainers.map (fun t => t.id)
  exclusive : ∀ b ∈ s.bookings, ∀ t ∈ s.trainers, t.id = b.trainer →
    b.timeSlot ∉ t.slots

theorem inv_init : Inv initialState := by
  constructor
  · rfl
  · decide
  · simp [initialState]
  · intro uid tid
    rw [countBookings_eq]
    simp [initialState]
  · simp [initialState]
  · simp [initialState]

theorem inv_of_eq (s s2 : AppState) (ht : s2.trainers = s.trainers)
    (hb : s2.bookings = s.bookings) (h : Inv s) : Inv s2 := by
  constructor
  · rw [ht]; exact h.ids_eq
  · rw [ht]; exact h.slots_nodup
  · rw [hb]; exact h.same_trainer
  · intro uid tid
    rw [countBookings_eq, hb, ← countBookings_eq]
    exact h.cap uid tid
  · rw [hb, ht]; exact h.booked_exists
  · rw [hb, ht]; exact h.exclusive

theorem getOrCreateUser_trainers (uid : Int) (name : String) (s : AppState) :
    (getOrCreateUser uid name s).2.trainers = s.trainers := by
  unfold getOrCreateUser
  cases s.users.find? (fun p => p.1 == uid) <;> rfl

theorem getOrCreateUser_bookings (uid : Int) (name : String) (s : AppState) :
    (getOrCreateUser uid name s).2.bookings = s.bookings := by
  unfold getOrCreateUser
  cases s.users.find? (fun p => p.1 == uid) <;> rfl

theorem inv_book (uid tid : Int) (sl : String) (now : Int) (s s2 : AppState)
    (hinv : Inv s) (h : bookSlot uid tid sl now s = .ok s2) : Inv s2 := by
  obtain ⟨husers, hbook, hupd, hcnt, p, hscan⟩ :=
    bookSlot_ok_decomp uid tid sl now s s2 h
  obtain ⟨pre, t, l1, l2, post, hts, hpre, htid, hslots, hnotl1, hts2⟩ :=
    updateTrainers_ok_decomp tid sl s.trainers s2.trainers hupd
  have hmapid : s2.trainers.map (fun t => t.id) = s.trainers.map (fun t => t.id) :=
    updateTrainers_ok_map_id tid sl s.trainers s2.trainers hupd
  have hallsame : ∀ b ∈ s.bookings, b.userId = uid → b.trainer = tid :=
    scan_ok_all_same uid tid s hinv.same_trainer p hscan
  have htmem : t ∈ s.trainers := by
    rw [hts]; exact List.mem_append_right _ (List.mem_cons_self _ _)
  have hnodup_t : t.slots.Nodup := hinv.slots_nodup t htmem
  have hslnotin : sl ∉ l1 ++ l2 := by
    have h2 := hnodup_t
    rw [hslots] at h2
    exact (List.nodup_cons.mp (List.nodup_middle.mp h2)).1
  have hnodup12 : (l1 ++ l2).Nodup := by
    have h2 := hnodup_t
    rw [hslots] at h2
    exact (List.nodup_cons.mp (List.nodup_middle.mp h2)).2
  have hidnodup : (s.trainers.map (fun t => t.id)).Nodup := by
    rw [hinv.ids_eq]; decide
  have hmid : t.id ∉ pre.map (fun t => t.id) ++ post.map (fun t => t.id) := by
    have h2 := hidnodup
    rw [hts] at h2
    simp only [List.map_append, List.map_cons] at h2
    exact (List.nodup_cons.mp (List.nodup_middle.mp h2)).1
  constructor
  · rw [hmapid]; exact hinv.ids_eq
  · intro t2 ht2
    rw [hts2] at ht2
    rcases List.mem_append.mp ht2 with hmem | hmem
    · exact hinv.slots_nodup t2 (by rw [hts]; exact List.mem_append_left _ hmem)
    · rcases List.mem_cons.mp hmem with rfl | hmem2
      · exact hnodup12
      · exact hinv.slots_nodup t2
          (by rw [hts]; exact List.mem_append_right _ (List.mem_cons_of_mem _ hmem2))
  · intro b1 hb1 b2 hb2 hu
    rw [hbook] at hb1 hb2
    rcases List.mem_append.mp hb1 with h1 | h1 <;>
      rcases List.mem_append.mp hb2 with h2 | h2
    · exact hinv.same_trainer b1 h1 b2 h2 hu
    · rw [List.mem_singleton.mp h2] at hu ⊢
      exact hallsame b1 h1 hu
    · rw [List.mem_singleton.mp h1] at hu ⊢
      exact (hallsame b2 h2 hu.symm).symm
    · rw [List.mem_singleton.mp h1, List.mem_singleton.mp h2]
  · intro u t0
    rw [countBookings_eq, hbook, List.countP_append]
    by_cases hp : isPair u t0 ⟨uid, tid, sl, now⟩ = true
    · obtain ⟨rfl, rfl⟩ : uid = u ∧ tid = t0 := by
        simpa [isPair] using hp
      have hone : List.countP (isPair uid tid)
          [({ userId := uid, trainer := tid, timeSlot := sl,
              bookedAt := now } : Booking)] = 1 := by
        simp [List.countP_cons, hp]
      rw [hone]
      have h2 := hcnt
      rw [countBookings_eq] at h2
      omega
    · have hzero : List.countP (isPair u t0)
          [({ userId := uid, trainer := tid, timeSlot := sl,
              bookedAt := now } : Booking)] = 0 := by
        simp [List.countP_cons, hp]
      rw [hzero]
      have h2 := hinv.cap u t0
      rw [countBookings_eq] at h2
      omega
  · intro b hb
    rw [hbook] at hb
    rw [hmapid]
    rcases List.mem_append.mp hb with h1 | h1
    · exact hinv.booked_exists b h1
    · rw [List.mem_singleton.mp h1]
      exact List.mem_map.mpr ⟨t, htmem, htid⟩
  · intro b hb t2 ht2 hid
    rw [hbook] at hb
    rw [hts2] at ht2
    rcases List.mem_append.mp hb with hbold | hbnew
    · rcases List.mem_append.mp ht2 with hm | hm
      · exact hinv.exclusive b hbold t2
          (by rw [hts]; exact List.mem_append_left _ hm) hid
      · rcases List.mem_cons.mp hm with rfl | hm2
        · have hbslot : b.timeSlot ∉ t.slots :=
            hinv.exclusive b hbold t htmem (by simpa using hid)
          intro hmem
          apply hbslot
          rw [hslots]
          rcases List.mem_append.mp hmem with hl | hl
          · exact List.mem_append_left _ hl
          · exact List.mem_append_right _ (List.mem_cons_of_mem _ hl)
        · exact hinv.exclusive b hbold t2
            (by rw [hts]; exact List.mem_append_right _ (List.mem_cons_of_mem _ hm2))
            hid
    · rw [List.mem_singleton.mp hbnew] at hid ⊢
      rcases List.mem_append.mp ht2 with hm | hm
      · exact absurd (by simpa using hid) (hpre t2 hm)
      · rcases List.mem_cons.mp hm with rfl | hm2
        · exact hslnotin
        · exfalso
          apply hmid
          exact List.mem_append_right _
            (List.mem_map.mpr ⟨t2, hm2, by simp at hid; rw [hid, htid]⟩)

theorem reachable_inv (s : AppState) (h : Reachable s) : Inv s := by
  induction h with
  | init => exact inv_init
  | book uid tid sl now hr hb ih => exact inv_book uid tid sl now _ _ ih hb
  | user uid name hr ih =>
    exact inv_of_eq _ _ (getOrCreateUser_trainers uid name _)
      (getOrCreateUser_bookings uid name _) ih
  | pay uid hr ih =>
    refine inv_of_eq _ _ ?_ ?_ ih <;> rfl

/-! ### Concrete reachable states used by the witnesses -/

/-- Trainer catalogue after slot "08:00" of trainer 1 is consumed. -/
def bookedTrainers1 : List Trainer :=
  [{ trainer1 with slots := defaultSlots.drop 1 },
   trainer2, trainer3, trainer4, trainer5]

/-- State after user 7 books trainer 1 at "08:00" from the fresh state. -/
def exState1 : AppState :=
  { users := [], trainers := bookedTrainers1,
    bookings := [{ userId := 7, trainer := 1, timeSlot := "08:00", bookedAt := 0 }] }

/-- State after user 7 also books "09:00" with trainer 1. -/
def exState2 : AppState :=
  { users := [],
    trainers := [{ trainer1 with slots := defaultSlots.drop 2 },
                 trainer2, trainer3, trainer4, trainer5],
    bookings := [{ userId := 7, trainer := 1, timeSlot := "08:00", bookedAt := 0 },
                 { userId := 7, trainer := 1, timeSlot := "09:00", bookedAt := 0 }] }

/-- State after user 7 holds three bookings with trainer 1. -/
def exState3 : AppState :=
  { users := [],
    trainers := [{ trainer1 with slots := defaultSlots.drop 3 },
                 trainer2, trainer3, trainer4, trainer5],
    bookings := [{ userId := 7, trainer := 1, timeSlot := "08:00", bookedAt := 0 },
                 { userId := 7, trainer := 1, timeSlot := "09:00", bookedAt := 0 },
                 { userId := 7, trainer := 1, timeSlot := "10:00", bookedAt := 0 }] }

theorem reachable_exState1 : Reachable exState1 :=
  Reachable.book 7 1 "08:00" 0 Reachable.init (by decide)

theorem reachable_exState2 : Reachable exState2 :=
  Reachable.book 7 1 "09:00" 0 reachable_exState1 (by decide)

theorem reachable_exState3 : Reachable exState3 :=
  Reachable.book 7 1 "10:00" 0 reachable_exState2 (by decide)

/-- A fresh catalogue with one paid user (id 7). -/
def exPaidState : AppState :=
  { users := [(7, { id := 7, name := "U", hasPaid := true })],
    trainers := defaultTrainers, bookings := [] }

/-- `exPaidState` after user 7 books trainer 1 at "08:00". -/
def exPaidBooked : AppState :=
  { users := [(7, { id := 7, name := "U", hasPaid := true })],
    trainers := bookedTrainers1,
    bookings := [{ userId := 7, trainer := 1, timeSlot := "08:00", bookedAt := 0 }] }

/-! ### C1 — single-trainer constraint -/

/-- C1: in every reachable state all of a user's bookings carry one
trainer ID, and a `bookSlot` request naming a trainer different from the
trainer of any existing booking of that user answers
`differentTrainer` (the transaction returns the error without
constructing a state, so no booking is created). -/
theorem C1_single_trainer (s : AppState) (h : Reachable s) :
    (∀ b1 ∈ s.bookings, ∀ b2 ∈ s.bookings,
      b1.userId = b2.userId → b1.trainer = b2.trainer) ∧
    (∀ (uid tid : Int) (sl : String) (now : Int) (b : Booking),
      b ∈ s.bookings → b.userId = uid → b.trainer ≠ tid →
      bookSlot uid tid sl now s = .error .differentTrainer) := by
  have hinv := reachable_inv s h
  refine ⟨hinv.same_trainer, ?_⟩
  intro uid tid sl now b hb huid htr
  have hall : ∀ b2 ∈ s.bookings, b2.userId = uid → b2.trainer ≠ tid := by
    intro b2 hb2 hu2
    rw [hinv.same_trainer b2 hb2 b hb (hu2.trans huid.symm)]
    exact htr
  unfold bookSlot
  rw [scanBookings_diff_error uid tid s.bookings hall ⟨b, hb, huid⟩ 0
    (Or.inl rfl) 0]

/-- C1 witness: user 7, already booked with trainer 1 in `exState1`,
asks for trainer 2 and is refused. -/
theorem C1_witness :
    bookSlot 7 2 "08:00" 0 exState1 = .error .differentTrainer :=
  (C1_single_trainer exState1 reachable_exState1).2 7 2 "08:00" 0
    { userId := 7, trainer := 1, timeSlot := "08:00", bookedAt := 0 }
    (by decide) rfl (by decide)

/-! ### C2 — per-trainer cap -/

/-- C2: in every reachable state every (user, trainer) pair has at most
3 bookings, and a request by a user already holding 3 bookings with the
requested trainer answers `limitExceeded` (again purely, so the users,
trainers and bookings are untouched). -/
theorem C2_per_trainer_cap (s : AppState) (h : Reachable s) :
    (∀ uid tid, countBookings s uid tid ≤ 3) ∧
    (∀ (uid tid : Int) (sl : String) (now : Int),
      countBookings s uid tid = 3 →
      bookSlot uid tid sl now s = .error .limitExceeded) := by
  have hinv := reachable_inv s h
  refine ⟨hinv.cap, ?_⟩
  intro uid tid sl now hcnt
  rw [countBookings_eq] at hcnt
  obtain ⟨b, hb, hpair⟩ : ∃ b ∈ s.bookings, isPair uid tid b = true :=
    List.countP_pos_iff.mp (by omega)
  obtain ⟨hbu, hbt⟩ : b.userId = uid ∧ b.trainer = tid := by
    simpa [isPair] using hpair
  have hall : ∀ b2 ∈ s.bookings, b2.userId = uid → b2.trainer = tid := by
    intro b2 hb2 hu2
    rw [hinv.same_trainer b2 hb2 b hb (hu2.trans hbu.symm)]
    exact hbt
  obtain ⟨et2, hscan⟩ := scanBookings_ok_of_same uid tid s.bookings hall 0 0
  unfold bookSlot
  rw [hscan]
  simp only [Nat.zero_add]
  rw [if_pos (by omega)]

/-- C2 witness: `exState3` holds 3 bookings of user 7 with trainer 1;
the fourth attempt is refused with the limit error. -/
theorem C2_witness :
    countBookings exState3 7 1 = 3 ∧
    bookSlot 7 1 "11:00" 0 exState3 = .error .limitExceeded :=
  ⟨by decide,
   (C2_per_trainer_cap exState3 reachable_exState3).2 7 1 "11:00" 0 (by decide)⟩

/-! ### C3 — slot exclusivity (corrected) -/

/-- C3 counterexample: in the reachable state `exState3` the slot
"08:00" is booked for trainer 1, yet re-requesting exactly that
(trainer, slot) pair does NOT return `slotUnavailable` — the
per-trainer cap fires first and the call returns `limitExceeded`. -/
theorem C3_counterexample :
    Reachable exState3 ∧
    ({ userId := 7, trainer := 1, timeSlot := "08:00", bookedAt := 0 } : Booking)
      ∈ exState3.bookings ∧
    bookSlot 7 1 "08:00" 0 exState3 = .error .limitExceeded ∧
    bookSlot 7 1 "08:00" 0 exState3 ≠ .error .slotUnavailable :=
  ⟨reachable_exState3, by decide, by decide, by decide⟩

/-- C3 (amended): in every reachable state a slot recorded in a booking
is absent from that trainer's available list, and a `bookSlot` call for
the same (trainer, slot) pair never succeeds; it returns
`slotUnavailable` whenever it is not already refused by the
single-trainer or cap checks. -/
theorem C3_slot_exclusivity (s : AppState) (h : Reachable s) :
    (∀ b ∈ s.bookings, ∀ t ∈ s.trainers, t.id = b.trainer →
      b.timeSlot ∉ t.slots) ∧
    (∀ (uid tid : Int) (sl : String) (now : Int) (b : Booking),
      b ∈ s.bookings → b.trainer = tid → b.timeSlot = sl →
      (∀ s2, bookSlot uid tid sl now s ≠ .ok s2) ∧
      (bookSlot uid tid sl now s ≠ .error .differentTrainer →
       bookSlot uid tid sl now s ≠ .error .limitExceeded →
       bookSlot uid tid sl now s = .error .slotUnavailable)) := by
  have hinv := reachable_inv s h
  refine ⟨hinv.exclusive, ?_⟩
  intro uid tid sl now b hb hbt hbsl
  have hex : ∃ t ∈ s.trainers, t.id = tid := by
    have hmem := hinv.booked_exists b hb
    rw [hbt] at hmem
    obtain ⟨t, ht, hid⟩ := List.mem_map.mp hmem
    exact ⟨t, ht, hid⟩
  have hnot : ∀ t ∈ s.trainers, t.id = tid → sl ∉ t.slots := by
    intro t ht hid
    have h2 := hinv.exclusive b hb t ht (hid.trans hbt.symm)
    rw [hbsl] at h2
    exact h2
  have hupd := updateTrainers_eq_slotUnavailable tid sl s.trainers hex hnot
  constructor
  · intro s2 hok
    obtain ⟨-, -, hupd2, -, -⟩ := bookSlot_ok_decomp uid tid sl now s s2 hok
    rw [hupd] at hupd2
    cases hupd2
  · intro hnd hnl
    cases hscan : scanBookings uid tid s.bookings 0 0 with
    | error e =>
      have he := scanBookings_error_eq uid tid s.bookings 0 0 e hscan
      subst he
      exfalso
      apply hnd
      unfold bookSlot
      rw [hscan]
    | ok p =>
      obtain ⟨et, cnt⟩ := p
      by_cases hc : 3 ≤ cnt
      · exfalso
        apply hnl
        unfold bookSlot
        rw [hscan]
        simp only
        rw [if_pos hc]
      · unfold bookSlot
        rw [hscan]
        simp only
        rw [if_neg hc, hupd]

/-- C3 witness: in `exState1` the booked pair (trainer 1, "08:00") is
gone from the list and the repeat attempt gets `slotUnavailable`. -/
theorem C3_witness :
    "08:00" ∉ ({ trainer1 with slots := defaultSlots.drop 1 } : Trainer).slots ∧
    bookSlot 7 1 "08:00" 0 exState1 = .error .slotUnavailable :=
  ⟨(C3_slot_exclusivity exState1 reachable_exState1).1
      { userId := 7, trainer := 1, timeSlot := "08:00", bookedAt := 0 }
      (by decide)
      { trainer1 with slots := defaultSlots.drop 1 }
      (by decide) (by decide),
   ((C3_slot_exclusivity exState1 reachable_exState1).2 7 1 "08:00" 0
      { userId := 7, trainer := 1, timeSlot := "08:00", bookedAt := 0 }
      (by decide) rfl rfl).2 (by decide) (by decide)⟩

/-! ### C4 — save/load round trip -/

/-- C4: for every reachable state, saving and re-loading returns exactly
the same state (users, trainer sequence with slot order, bookings) and
leaves the record holding that state. -/
theorem C4_round_trip (s : AppState) (store : Option AppState)
    (h : Reachable s) : loadState (saveState s store) = (s, some s) := by
  have hinv := reachable_inv s h
  have hne : s.trainers.isEmpty = false := by
    have hids := hinv.ids_eq
    cases hts : s.trainers with
    | nil => rw [hts] at hids; simp at hids
    | cons a l => simp
  simp [loadState, saveState, hne]

/-- C4 witness: round trip at the seeded initial state. -/
theorem C4_witness :
    loadState (saveState initialState none) = (initialState, some initialState) :=
  C4_round_trip initialState none Reachable.init

/-! ### C5 — fresh-start seeding -/

/-- C5: with no persisted record, `loadState` yields the state with no
users, no bookings and the five seed trainers carrying the thirteen
hourly slots 08:00–20:00, immediately persists it, and a second load
from the persisted record reproduces the same catalogue. -/
theorem C5_fresh_seed :
    loadState none = (initialState, some initialState) ∧
    initialState.users = [] ∧
    initialState.bookings = [] ∧
    initialState.trainers.map (fun t => t.id) = [1, 2, 3, 4, 5] ∧
    (∀ t ∈ initialState.trainers, t.slots = defaultSlots) ∧
    defaultSlots = ["08:00", "09:00", "10:00", "11:00", "12:00", "13:00",
      "14:00", "15:00", "16:00", "17:00", "18:00", "19:00", "20:00"] ∧
    defaultSlots.length = 13 ∧
    (loadState (loadState none).2).1.trainers = (loadState none).1.trainers := by
  refine ⟨rfl, rfl, rfl, rfl, ?_, rfl, rfl, ?_⟩
  · decide
  · decide

/-! ### C6 — entitlement is checked by the caller, not by `bookSlot` -/

/-- C6: `bookSlot` never inspects `hasPaid` — on two states agreeing on
bookings and trainers (users arbitrary) it produces the same outcome and
the same resulting bookings/trainers — and in the `slot_` callback an
unpaid user is turned away before `bookSlot` runs, with the bookings
ledger untouched. -/
theorem C6_entitlement_location (uid : Int) (name : String) (tid : Int)
    (sl : String) (now : Int) (saveOk : Bool) (s1 s2 : AppState)
    (store : Option AppState)
    (hb : s1.bookings = s2.bookings) (ht : s1.trainers = s2.trainers) :
    ((bookSlot uid tid sl now s1).map (fun s => (s.bookings, s.trainers)) =
      (bookSlot uid tid sl now s2).map (fun s => (s.bookings, s.trainers))) ∧
    ((getOrCreateUser uid name s1).1.hasPaid = false →
      handleSlotCallback uid name tid sl now saveOk s1 store =
        (.rejectedUnpaid, (getOrCreateUser uid name s1).2, store) ∧
      (getOrCreateUser uid name s1).2.bookings = s1.bookings) := by
  constructor
  · unfold bookSlot
    rw [hb, ht]
    cases scanBookings uid tid s2.bookings 0 0 with
    | error e => rfl
    | ok p =>
      obtain ⟨et, cnt⟩ := p
      simp only
      by_cases hc : 3 ≤ cnt
      · simp only [if_pos hc]
      · simp only [if_neg hc]
        cases updateTrainers tid sl s2.trainers with
        | error e => rfl
        | ok ts => rfl
  · intro hpaid
    refine ⟨?_, getOrCreateUser_bookings uid name s1⟩
    simp [handleSlotCallback, hpaid]

/-- C6 witness: `initialState` and `exPaidState` differ only in users;
booking outcomes agree, and the unpaid user 9 is rejected before the
transaction. -/
theorem C6_witness :
    ((bookSlot 9 1 "08:00" 0 initialState).map (fun s => (s.bookings, s.trainers)) =
      (bookSlot 9 1 "08:00" 0 exPaidState).map (fun s => (s.bookings, s.trainers))) ∧
    handleSlotCallback 9 "X" 1 "08:00" 0 true initialState none =
      (.rejectedUnpaid, (getOrCreateUser 9 "X" initialState).2, none) :=
  ⟨(C6_entitlement_location 9 "X" 1 "08:00" 0 true initialState exPaidState
      none rfl rfl).1,
   ((C6_entitlement_location 9 "X" 1 "08:00" 0 true initialState exPaidState
      none rfl rfl).2 (by decide)).1⟩

/-! ### C7 — no prior bookings never triggers the trainer check -/

/-- C7: for a user with no bookings in the ledger, `bookSlot` is decided
purely by trainer resolution and slot lookup — in particular it never
answers `differentTrainer`, the zero sentinel notwithstanding. -/
theorem C7_no_prior_bookings (uid tid : Int) (sl : String) (now : Int)
    (s : AppState) (h : ∀ b ∈ s.bookings, ¬ b.userId = uid) :
    bookSlot uid tid sl now s ≠ .error .differentTrainer ∧
    bookSlot uid tid sl now s =
      Except.map (afterBooking uid tid sl now s)
        (updateTrainers tid sl s.trainers) := by
  have hscan := scanBookings_skip uid tid s.bookings h 0 0
  have heq : bookSlot uid tid sl now s =
      Except.map (afterBooking uid tid sl now s)
        (updateTrainers tid sl s.trainers) := by
    unfold bookSlot
    rw [hscan]
    simp only
    rw [if_neg (by omega : ¬ 3 ≤ 0)]
    cases updateTrainers tid sl s.trainers with
    | error e => rfl
    | ok ts => rfl
  refine ⟨?_, heq⟩
  rw [heq]
  cases hu : updateTrainers tid sl s.trainers with
  | error e =>
    rcases updateTrainers_error_cases tid sl s.trainers e hu with rfl | rfl <;>
      simp [Except.map]
  | ok ts => simp [Except.map]

/-- C7 witness: user 42 has no bookings in `exState1`; the refusal the
call gets for the consumed slot is not the different-trainer error. -/
theorem C7_witness :
    bookSlot 42 1 "08:00" 0 exState1 ≠ .error .differentTrainer :=
  (C7_no_prior_bookings 42 1 "08:00" 0 exState1 (by decide)).1

/-! ### C8 — shape of a successful slot removal -/

/-- C8: a successful `bookSlot` appends exactly one booking, leaves the
users untouched, and rewrites the trainer list as: the first trainer
matching the requested ID loses precisely the first occurrence of the
requested slot (order of the rest preserved, all other fields
preserved), while every other trainer record is unchanged. -/
theorem C8_slot_removal (uid tid : Int) (sl : String) (now : Int)
    (s s2 : AppState) (h : bookSlot uid tid sl now s = .ok s2) :
    s2.users = s.users ∧
    s2.bookings = s.bookings ++
      [{ userId := uid, trainer := tid, timeSlot := sl, bookedAt := now }] ∧
    ∃ pre t l1 l2 post,
      s.trainers = pre ++ t :: post ∧
      (∀ t2 ∈ pre, t2.id ≠ tid) ∧ t.id = tid ∧
      t.slots = l1 ++ sl :: l2 ∧ sl ∉ l1 ∧
      s2.trainers = pre ++ { t with slots := l1 ++ l2 } :: post := by
  obtain ⟨hu, hb, hupd, -, -⟩ := bookSlot_ok_decomp uid tid sl now s s2 h
  exact ⟨hu, hb, updateTrainers_ok_decomp tid sl s.trainers s2.trainers hupd⟩

/-- C8 witness: the first booking on the fresh state removes "08:00"
from trainer 1 and nothing else. -/
theorem C8_witness :
    ∃ pre t l1 l2 post,
      initialState.trainers = pre ++ t :: post ∧
      (∀ t2 ∈ pre, t2.id ≠ 1) ∧ t.id = 1 ∧
      t.slots = l1 ++ "08:00" :: l2 ∧ "08:00" ∉ l1 ∧
      exState1.trainers = pre ++ { t with slots := l1 ++ l2 } :: post :=
  (C8_slot_removal 7 1 "08:00" 0 initialState exState1 (by decide)).2.2

/-! ### C9 — durability gap on save failure -/

/-- C9: after a successful `bookSlot` inside the `slot_` handler, the
in-memory state is the mutated state whether or not the subsequent
`saveState` write succeeds — the appended booking and the consumed slot
survive a failed flush, which only leaves the durable record stale. -/
theorem C9_durability_gap (uid : Int) (name : String) (tid : Int)
    (sl : String) (now : Int) (s s2 : AppState) (store : Option AppState)
    (hpaid : (getOrCreateUser uid name s).1.hasPaid = true)
    (hbook : bookSlot uid tid sl now (getOrCreateUser uid name s).2 = .ok s2) :
    handleSlotCallback uid name tid sl now true s store =
      (.booked, s2, some s2) ∧
    handleSlotCallback uid name tid sl now false s store =
      (.booked, s2, store) ∧
    s2.bookings = (getOrCreateUser uid name s).2.bookings ++
      [{ userId := uid, trainer := tid, timeSlot := sl, bookedAt := now }] ∧
    updateTrainers tid sl (getOrCreateUser uid name s).2.trainers =
      .ok s2.trainers := by
  obtain ⟨-, hb, hupd, -, -⟩ := bookSlot_ok_decomp uid tid sl now _ s2 hbook
  refine ⟨?_, ?_, hb, hupd⟩ <;> simp [handleSlotCallback, hpaid, hbook, saveState]

/-- C9 witness: user 7 (paid) books; with a failing flush the in-memory
state still holds the booking while the record keeps the old state. -/
theorem C9_witness :
    handleSlotCallback 7 "U" 1 "08:00" 0 false exPaidState (some exPaidState) =
      (.booked, exPaidBooked, some exPaidState) ∧
    handleSlotCallback 7 "U" 1 "08:00" 0 true exPaidState (some exPaidState) =
      (.booked, exPaidBooked, some exPaidBooked) :=
  ⟨(C9_durability_gap 7 "U" 1 "08:00" 0 exPaidState exPaidBooked
      (some exPaidState) (by decide) (by decide)).2.1,
   (C9_durability_gap 7 "U" 1 "08:00" 0 exPaidState exPaidBooked
      (some exPaidState) (by decide) (by decide)).1⟩

/-! ### C10 — positional indexing in `scheduleKeyboard` -/

theorem find?_at_index {α : Type} (p : α → Bool) (l : List α) (i : Nat)
    (hi : i < l.length)
    (hbefore : ∀ j (hj : j < i), p (l.get ⟨j, Nat.lt_trans hj hi⟩) = false)
    (hp : p (l.get ⟨i, hi⟩) = true) :
    l.find? p = some (l.get ⟨i, hi⟩) := by
  induction l generalizing i with
  | nil => exact absurd hi (Nat.not_lt_zero i)
  | cons a l ih =>
    cases i with
    | zero =>
      have hp2 : p a = true := hp
      rw [List.find?_cons_of_pos _ hp2]
      rfl
    | succ j =>
      have ha : p a = false := hbefore 0 (Nat.succ_pos j)
      rw [List.find?_cons_of_neg _ (by simp [ha])]
      exact ih j (Nat.lt_of_succ_lt_succ hi)
        (fun k hk => hbefore (k + 1) (Nat.succ_lt_succ hk)) hp

/-- C10: `scheduleKeyboard` reads `Trainers[trainerID-1]` with no bounds
check or ID lookup.  When the i-th trainer (1-based) carries ID i — true
of the seed catalogue — and 1 ≤ trainerID ≤ length, the access is in
bounds and returns exactly the slots of the trainer `getTrainerByID`
resolves; for a trainerID outside that range the access is out of
bounds (`none` in the Option-indexed embedding, a panic in Go). -/
theorem C10_schedule_positional (s : AppState) (tid : Int)
    (hpos : s.trainers.map (fun t => t.id) =
      (List.range s.trainers.length).map (fun i : Nat => (i : Int) + 1)) :
    ((1 ≤ tid ∧ tid ≤ s.trainers.length) →
      ∃ t, getTrainerByID tid s = some t ∧ t.id = tid ∧
        scheduleKeyboardSlots tid s = some t.slots) ∧
    ((tid < 1 ∨ (s.trainers.length : Int) < tid) →
      scheduleKeyboardSlots tid s = none) := by
  have hid : ∀ i (hi : i < s.trainers.length),
      (s.trainers.get ⟨i, hi⟩).id = (i : Int) + 1 := by
    intro i hi
    have h2 := congrArg (fun l => l[i]?) hpos
    simp only [List.getElem?_map] at h2
    rw [List.getElem?_eq_getElem hi,
      List.getElem?_eq_getElem
        (show i < (List.range s.trainers.length).length by simpa using hi)] at h2
    simp only [Option.map_some, Option.some.injEq, List.getElem_range] at h2
    simpa using h2
  constructor
  · rintro ⟨h1, h2⟩
    have hi : (tid - 1).toNat < s.trainers.length := by omega
    refine ⟨s.trainers.get ⟨(tid - 1).toNat, hi⟩, ?_, ?_, ?_⟩
    · apply find?_at_index
      · intro j hj
        have hjid := hid j (Nat.lt_trans hj hi)
        rw [beq_eq_false_iff_ne, hjid]
        intro hcon
        omega
      · rw [beq_iff_eq, hid (tid - 1).toNat hi]
        omega
    · rw [hid (tid - 1).toNat hi]
      omega
    · unfold scheduleKeyboardSlots
      rw [if_neg (by omega : ¬ tid - 1 < 0), List.getElem?_eq_getElem hi]
      rfl
  · intro hout
    unfold scheduleKeyboardSlots
    rcases hout with hlt | hgt
    · rw [if_pos (by omega)]
    · rw [if_neg (by omega : ¬ tid - 1 < 0),
        List.getElem?_eq_none (by omega : s.trainers.length ≤ (tid - 1).toNat)]
      rfl

/-- C10 witness: on the seed catalogue trainerID 3 resolves positionally
to the trainer with ID 3, while 0 and 6 are out of bounds. -/
theorem C10_witness :
    (∃ t, getTrainerByID 3 initialState = some t ∧ t.id = 3 ∧
      scheduleKeyboardSlots 3 initialState = some t.slots) ∧
    scheduleKeyboardSlots 0 initialState = none ∧
    scheduleKeyboardSlots 6 initialState = none :=
  ⟨(C10_schedule_positional initialState 3 (by decide)).1 (by decide),
   (C10_schedule_positional initialState 0 (by decide)).2 (by decide),
   (C10_schedule_positional initialState 6 (by decide)).2 (by decide)⟩

end GymBot
